import Mathlib

/-!
Verification development for the Talkie backend (Go).

Shallow embedding of the room/session lifecycle core:
* `models.Room`, `models.Participant`, `models.Message` become Lean structures
  with `Nat` timestamps (Go `time.Time` values compared with `Before`/`After`;
  the zero value becomes `0`).
* The Supabase Session Store (`internal/supabase/client.go`) becomes a pure
  `Store` value; each REST call becomes a pure function on it.  A call that can
  fail at the HTTP layer is driven by an explicit success flag in an
  environment record, since the Go code only branches on "did the request
  return an error".
* Service operations (`internal/services/room.go`, `cleanup.go`) return,
  besides their result and the updated store, a trace of `Action`s recording
  each successful store mutation and each broadcast request issued, in program
  order.  Broadcast failures in Go are only logged and never change control
  flow, so they need no flag.
* The in-memory `MessageService` (`internal/services/message.go`) becomes an
  association list keyed by room id.
* The WebSocket hub (`internal/websocket/hub.go`) fan-out loop becomes a
  recursion over the snapshot of a room's client set; a client's bounded
  `send` channel becomes a queue list with a capacity field, and the
  non-blocking `select ... default` becomes a test `queue.length < cap`.
-/

namespace Talkie

/-- Embeds `models.Room`: id, display name, base64 encryption key, creation
and last-active timestamps. -/
structure Room where
  id : String
  name : String
  encryptionKey : String
  createdAt : Nat
  lastActiveAt : Nat
deriving DecidableEq, Repr

/-- Embeds `models.Participant`. -/
structure Participant where
  id : String
  roomID : String
  username : String
  avatar : String
  joinedAt : Nat
  lastActiveAt : Nat
deriving DecidableEq, Repr

/-- Embeds `models.ReplyContext` (opaque reply metadata). -/
structure ReplyContext where
  username : String
  content : String
deriving DecidableEq, Repr

/-- Embeds `models.Message`; the payload is opaque to the core. -/
structure Message where
  id : String
  roomID : String
  participantID : String
  content : String
  username : String
  avatar : String
  timestamp : Nat
  replyTo : Option ReplyContext
deriving DecidableEq, Repr

/-- The Session Store contents: the `rooms` and `participants` tables of the
Supabase schema, in insertion order. -/
structure Store where
  rooms : List Room
  participants : List Participant
deriving DecidableEq, Repr

namespace Store

/-- Embeds `Client.GetRoom`: select the row with the given id (`none` both for
"not found" and for a failed request, which the services treat alike). -/
def getRoom (db : Store) (id : String) : Option Room :=
  db.rooms.find? (fun r => r.id == id)

/-- Embeds `Client.CreateRoom`: insert a room row. -/
def createRoom (db : Store) (r : Room) : Store :=
  { db with rooms := db.rooms ++ [r] }

/-- Embeds `Client.UpdateRoomActivity`: patch `last_active_at` to now. -/
def updateRoomActivity (db : Store) (id : String) (now : Nat) : Store :=
  { db with rooms := db.rooms.map (fun r => if r.id == id then { r with lastActiveAt := now } else r) }

/-- Embeds `Client.DeleteRoom`: delete the room row; per the source comment
this cascade-deletes the room's participants (foreign key constraint). -/
def deleteRoom (db : Store) (id : String) : Store :=
  { db with rooms := db.rooms.filter (fun r => r.id != id),
            participants := db.participants.filter (fun p => p.roomID != id) }

/-- Embeds `Client.AddParticipant`: insert a participant row. -/
def addParticipant (db : Store) (p : Participant) : Store :=
  { db with participants := db.participants ++ [p] }

/-- Embeds `Client.GetParticipant`: select by id. -/
def getParticipant (db : Store) (pid : String) : Option Participant :=
  db.participants.find? (fun p => p.id == pid)

/-- Embeds `Client.GetParticipants`: select by room id. -/
def getParticipants (db : Store) (rid : String) : List Participant :=
  db.participants.filter (fun p => p.roomID == rid)

/-- Embeds `Client.RemoveParticipant`: a REST `DELETE` on `id=eq.pid`; it
succeeds (deleting nothing) when no row matches, so it is a plain filter. -/
def removeParticipant (db : Store) (pid : String) : Store :=
  { db with participants := db.participants.filter (fun p => p.id != pid) }

/-- Embeds `Client.UpdateParticipantActivity`: patch `last_active_at` to now. -/
def updateParticipantActivity (db : Store) (pid : String) (now : Nat) : Store :=
  { db with participants := db.participants.map (fun p => if p.id == pid then { p with lastActiveAt := now } else p) }

/-- Embeds `Client.CountParticipants` (length of `GetParticipants`). -/
def countParticipants (db : Store) (rid : String) : Nat :=
  (db.getParticipants rid).length

/-- Embeds `Client.GetInactiveParticipants`: rows with `last_active_at` strictly
below the threshold. -/
def getInactiveParticipants (db : Store) (threshold : Nat) : List Participant :=
  db.participants.filter (fun p => decide (p.lastActiveAt < threshold))

/-- Embeds `Client.GetInactiveRooms`. -/
def getInactiveRooms (db : Store) (threshold : Nat) : List Room :=
  db.rooms.filter (fun r => decide (r.lastActiveAt < threshold))

/-- The ids of the rooms currently present in the store. -/
def roomIDs (db : Store) : List String :=
  db.rooms.map Room.id

end Store

/-- One observable step of a service operation: a successful Session Store
mutation, a broadcast request on the realtime bus, or a call into the
message log's per-room purge (`MessageService.DeleteRoomMessages`). -/
inductive Action where
  | storeCreateRoom (rid : String)
  | storeAddParticipant (pid : String)
  | storeRemoveParticipant (pid : String)
  | storeDeleteRoom (rid : String)
  | storeUpdateRoomActivity (rid : String)
  | storeUpdateParticipantActivity (pid : String)
  | broadcastParticipant (rid : String) (act : String) (pid : String)
  | broadcastRoom (act : String) (rid : String)
  | deleteRoomMessages (rid : String)
deriving DecidableEq, Repr

/-- The lower-case hex digit table used by Go's `encoding/hex`. -/
def hexDigit (n : Nat) : Char :=
  "0123456789abcdef".toList.getD n '0'

/-- Embeds `hex.EncodeToString`: each byte becomes its high nibble's digit
followed by its low nibble's digit. -/
def hexEncode (data : List Nat) : String :=
  String.mk (data.foldr (fun b acc => hexDigit (b / 16) :: hexDigit (b % 16) :: acc) [])

/-- The alphabet constant `base64Chars` of `services.base64Encode` (identical
to the RFC 4648 base64 alphabet). -/
def b64char (i : Nat) : Char :=
  "ABCDEFGHIJKLMNOPQRSTUVWXYZabcdefghijklmnopqrstuvwxyz0123456789+/".toList.getD i 'A'

/-- Embeds the hand-rolled `services.base64Encode`: three input bytes are
packed into `b = d0 shl 16 or d1 shl 8 or d2` (a `uint32`, exact for bytes)
and emitted as the four 6-bit fields of `b`; a 2-byte tail emits three fields
and one pad, a 1-byte tail two fields and two pads.  Shifts and masks are
written as division and remainder by the matching powers of two. -/
def base64Encode : List Nat → List Char
  | [] => []
  | [d0] =>
    [b64char (d0 * 65536 / 262144 % 64), b64char (d0 * 65536 / 4096 % 64), '=', '=']
  | [d0, d1] =>
    [b64char ((d0 * 65536 + d1 * 256) / 262144 % 64), b64char ((d0 * 65536 + d1 * 256) / 4096 % 64),
      b64char ((d0 * 65536 + d1 * 256) / 64 % 64), '=']
  | d0 :: d1 :: d2 :: rest =>
    b64char ((d0 * 65536 + d1 * 256 + d2) / 262144 % 64)
      :: b64char ((d0 * 65536 + d1 * 256 + d2) / 4096 % 64)
      :: b64char ((d0 * 65536 + d1 * 256 + d2) / 64 % 64)
      :: b64char ((d0 * 65536 + d1 * 256 + d2) % 64)
      :: base64Encode rest

/-- Written from the specification, not the source: RFC 4648 section 4 base64.
Each 24-bit group of three bytes is split into four 6-bit groups, most
significant first; a final 16-bit group yields three characters and one `=`
pad, a final 8-bit group two characters and two `=` pads.  The 6-bit groups
are expressed byte-wise: `d0 div 4`, `(d0 mod 4) * 16 + d1 div 16`,
`(d1 mod 16) * 4 + d2 div 64`, `d2 mod 64`. -/
def rfc4648Encode : List Nat → List Char
  | [] => []
  | [d0] =>
    [b64char (d0 / 4), b64char (d0 % 4 * 16), '=', '=']
  | [d0, d1] =>
    [b64char (d0 / 4), b64char (d0 % 4 * 16 + d1 / 16), b64char (d1 % 16 * 4), '=']
  | d0 :: d1 :: d2 :: rest =>
    b64char (d0 / 4) :: b64char (d0 % 4 * 16 + d1 / 16) :: b64char (d1 % 16 * 4 + d2 / 64)
      :: b64char (d2 % 64) :: rfc4648Encode rest

/-- Embeds `services.generateRoomID` applied to the four random bytes it drew:
hex-encode them (yielding 8 characters). -/
def generateRoomID (bytes : List Nat) : String :=
  hexEncode bytes

/-- Embeds `services.generateEncryptionKey` applied to the 32 random bytes it
drew: base64-encode them. -/
def generateEncryptionKey (bytes : List Nat) : String :=
  String.mk (base64Encode bytes)

namespace RoomService

/-- Success flags for the store requests issued by `RoomService.JoinRoom`. -/
structure JoinEnv where
  getRoomOk : Bool
  addOk : Bool
  updateActivityOk : Bool
  getParticipantsOk : Bool
deriving DecidableEq, Repr

/-- Success flags for the store requests issued by `RoomService.LeaveRoom`. -/
structure LeaveEnv where
  getOk : Bool
  removeOk : Bool
  countOk : Bool
  deleteOk : Bool
deriving DecidableEq, Repr

/-- Embeds `RoomService.CreateRoom`.  The random bytes drawn by
`generateRoomID` and `generateEncryptionKey` are passed in explicitly;
`createOk` is the success of the insert request.  On insert failure the room
is not stored and an error is returned; note the Go code issues no
`BroadcastRoomEvent` call on either path. -/
def createRoom (db : Store) (name : String) (idBytes keyBytes : List Nat) (now : Nat)
    (createOk : Bool) : Except String Room × Store × List Action :=
  let roomID := generateRoomID idBytes
  let key := generateEncryptionKey keyBytes
  let name1 := if name = "" then "Untitled Room" else name
  let room : Room := ⟨roomID, name1, key, now, now⟩
  if createOk then
    (Except.ok room, db.createRoom room, [Action.storeCreateRoom roomID])
  else
    (Except.error "failed to create room", db, [])

/-- Embeds `RoomService.JoinRoom`: verify the room exists, insert the new
participant, broadcast the join event (failure only logged), bump the room
activity (failure only logged), then fetch the updated participant list. -/
def joinRoom (db : Store) (roomID username avatar pid : String) (now : Nat) (env : JoinEnv) :
    Except String (Participant × Room × List Participant) × Store × List Action :=
  match (if env.getRoomOk then db.getRoom roomID else none) with
  | none => (Except.error "room not found", db, [])
  | some room =>
    let p : Participant := ⟨pid, roomID, username, avatar, now, now⟩
    if env.addOk then
      let db1 := db.addParticipant p
      let tr1 := [Action.storeAddParticipant pid, Action.broadcastParticipant roomID "join" pid]
      let step2 :=
        if env.updateActivityOk then
          (db1.updateRoomActivity roomID now, tr1 ++ [Action.storeUpdateRoomActivity roomID])
        else (db1, tr1)
      if env.getParticipantsOk then
        (Except.ok (p, room, step2.1.getParticipants roomID), step2.1, step2.2)
      else
        (Except.error "failed to get participants", step2.1, step2.2)
    else
      (Except.error "failed to join room", db, [])

/-- Embeds `RoomService.LeaveRoom`: fetch the participant for the broadcast
payload (failure only logged, leaving `none`), delete the participant row,
broadcast the leave event when the participant was fetched, recount the room,
and delete the room when the recount is zero. -/
def leaveRoom (db : Store) (roomID pid : String) (env : LeaveEnv) :
    Except String Unit × Store × List Action :=
  let participant := if env.getOk then db.getParticipant pid else none
  if env.removeOk then
    let db1 := db.removeParticipant pid
    let tr2 := Action.storeRemoveParticipant pid ::
      (match participant with
       | some p => [Action.broadcastParticipant roomID "leave" p.id]
       | none => [])
    if env.countOk then
      if db1.countParticipants roomID = 0 then
        if env.deleteOk then
          (Except.ok (), db1.deleteRoom roomID, tr2 ++ [Action.storeDeleteRoom roomID])
        else
          (Except.error "failed to delete empty room", db1, tr2)
      else
        (Except.ok (), db1, tr2)
    else
      (Except.error "failed to check participant count", db1, tr2)
  else
    (Except.error "failed to leave room", db, [])

/-- Embeds `RoomService.UpdateHeartbeat`: bump the room activity, then the
participant activity when a participant id was supplied. -/
def updateHeartbeat (db : Store) (roomID pid : String) (now : Nat)
    (roomOk participantOk : Bool) : Except String Unit × Store × List Action :=
  if roomOk then
    let db1 := db.updateRoomActivity roomID now
    let tr1 := [Action.storeUpdateRoomActivity roomID]
    if pid = "" then (Except.ok (), db1, tr1)
    else if participantOk then
      (Except.ok (), db1.updateParticipantActivity pid now,
        tr1 ++ [Action.storeUpdateParticipantActivity pid])
    else (Except.error "failed to update participant activity", db1, tr1)
  else
    (Except.error "failed to update room activity", db, [])

end RoomService

namespace CleanupService

/-- Success flags for the store requests issued by one cleanup sweep, per
entity id (each loop iteration issues its own request). -/
structure CleanupEnv where
  getParticipantsOk : Bool
  removeOk : String → Bool
  countOk : String → Bool
  deleteOk : String → Bool
  getRoomsOk : Bool

/-- Record a room id in the `roomsToCheck` set (a Go map keyed by room id);
modelled as a duplicate-free list in first-insertion order. -/
def insertOnce (rid : String) (l : List String) : List String :=
  if rid ∈ l then l else l ++ [rid]

/-- Embeds the first loop of `CleanupService.cleanupParticipants`: for each
inactive participant, delete its row; on success broadcast its leave event and
record its room in `roomsToCheck`; on failure log and continue. -/
def removeInactiveLoop (removeOk : String → Bool) :
    List Participant → Store → List Action → List String → Store × List Action × List String
  | [], db, tr, rooms => (db, tr, rooms)
  | p :: rest, db, tr, rooms =>
    if removeOk p.id then
      removeInactiveLoop removeOk rest (db.removeParticipant p.id)
        (tr ++ [Action.storeRemoveParticipant p.id, Action.broadcastParticipant p.roomID "leave" p.id])
        (insertOnce p.roomID rooms)
    else
      removeInactiveLoop removeOk rest db tr rooms

/-- Embeds the second loop of `CleanupService.cleanupParticipants`: recount
each recorded room and delete it when empty; any failure is logged and the
loop continues. -/
def deleteEmptyLoop (countOk deleteOk : String → Bool) :
    List String → Store → List Action → Store × List Action
  | [], db, tr => (db, tr)
  | rid :: rest, db, tr =>
    if countOk rid then
      if db.countParticipants rid = 0 then
        if deleteOk rid then
          deleteEmptyLoop countOk deleteOk rest (db.deleteRoom rid) (tr ++ [Action.storeDeleteRoom rid])
        else
          deleteEmptyLoop countOk deleteOk rest db tr
      else
        deleteEmptyLoop countOk deleteOk rest db tr
    else
      deleteEmptyLoop countOk deleteOk rest db tr

/-- Embeds `CleanupService.cleanupParticipants`. -/
def cleanupParticipants (db : Store) (threshold : Nat) (env : CleanupEnv) : Store × List Action :=
  if env.getParticipantsOk then
    let ps := db.getInactiveParticipants threshold
    let step1 := removeInactiveLoop env.removeOk ps db [] []
    deleteEmptyLoop env.countOk env.deleteOk step1.2.2 step1.1 step1.2.1
  else (db, [])

/-- Embeds the loop of `CleanupService.cleanupRooms`: delete each room that
was inactive at query time; failures are logged and skipped. -/
def deleteRoomsLoop (deleteOk : String → Bool) :
    List Room → Store → List Action → Store × List Action
  | [], db, tr => (db, tr)
  | r :: rest, db, tr =>
    if deleteOk r.id then
      deleteRoomsLoop deleteOk rest (db.deleteRoom r.id) (tr ++ [Action.storeDeleteRoom r.id])
    else
      deleteRoomsLoop deleteOk rest db tr

/-- Embeds `CleanupService.cleanupRooms`. -/
def cleanupRooms (db : Store) (threshold : Nat) (env : CleanupEnv) : Store × List Action :=
  if env.getRoomsOk then
    deleteRoomsLoop env.deleteOk (db.getInactiveRooms threshold) db []
  else (db, [])

/-- Embeds `CleanupService.cleanup`: participants first, then rooms. -/
def cleanup (db : Store) (threshold : Nat) (env : CleanupEnv) : Store × List Action :=
  let step1 := cleanupParticipants db threshold env
  let step2 := cleanupRooms step1.1 threshold env
  (step2.1, step1.2 ++ step2.2)

/-- Embeds the timing of `CleanupService.Start` over `steps` unit time steps:
the only thing in its body before the `for`/`select` loop is
`time.NewTicker(s.interval)`, whose first tick fires after one full interval,
so a sweep runs exactly at each positive multiple of the interval — there is
no call to `cleanup` before the loop. -/
def sweepTimes (interval : Nat) : Nat → List Nat
  | 0 => []
  | n + 1 => sweepTimes interval n ++ (if (n + 1) % interval = 0 then [n + 1] else [])

end CleanupService

namespace MessageService

/-- The in-memory message map `roomID -> []Message`; an association list where
the first binding for a key wins. -/
structure MsgStore where
  messages : List (String × List Message)
deriving DecidableEq, Repr

/-- Reading `s.messages[roomID]` (a missing key yields the empty slice). -/
def MsgStore.get (ms : MsgStore) (rid : String) : List Message :=
  (ms.messages.lookup rid).getD []

/-- Writing `s.messages[roomID] = l`. -/
def MsgStore.set (ms : MsgStore) (rid : String) (l : List Message) : MsgStore :=
  ⟨(rid, l) :: ms.messages.filter (fun kv => kv.1 != rid)⟩

/-- Embeds `MessageService.SendMessage`: append the new message to the room's
slice. -/
def sendMessage (ms : MsgStore) (rid : String) (msg : Message) : MsgStore :=
  ms.set rid (ms.get rid ++ [msg])

/-- Embeds `MessageService.GetMessages`: the whole room slice when `afterTime`
is the zero value, otherwise the messages with `Timestamp.After(afterTime)`,
in stored order (a `nil` slice is returned as the empty one). -/
def getMessages (ms : MsgStore) (rid : String) (afterTime : Nat) : List Message :=
  let roomMessages := ms.get rid
  if afterTime = 0 then roomMessages
  else roomMessages.filter (fun m => decide (afterTime < m.timestamp))

/-- Embeds `MessageService.DeleteRoomMessages`: drop the room's whole slice. -/
def deleteRoomMessages (ms : MsgStore) (rid : String) : MsgStore :=
  ⟨ms.messages.filter (fun kv => kv.1 != rid)⟩

/-- Replays the message-log calls recorded in a service trace against the
message store; only `Action.deleteRoomMessages` touches it. -/
def applyMsgActions (tr : List Action) (ms : MsgStore) : MsgStore :=
  tr.foldl (fun acc a =>
    match a with
    | Action.deleteRoomMessages rid => deleteRoomMessages acc rid
    | _ => acc) ms

end MessageService

namespace Hub

/-- A registered WebSocket client: its participant id, the capacity of its
buffered `send` channel (256 in the source), the queue contents, and whether
the hub has closed the channel. -/
structure Conn where
  id : String
  cap : Nat
  queue : List String
  closed : Bool
deriving DecidableEq, Repr

/-- Appending a payload to a client's outbound queue (`client.send <- msg`). -/
def enqueue (msg : String) (c : Conn) : Conn :=
  { c with queue := c.queue ++ [msg] }

/-- Embeds the fan-out loop of `Hub.broadcastToRoom` over the snapshot of the
room's client set: the sender is skipped; a client whose queue has room
receives the payload; a client whose queue is full is removed from the room
set and its channel closed (the `select`/`default` non-blocking send).
Returns the new room set and the dropped clients. -/
def broadcastToRoom (clients : List Conn) (msg : String) (sender : Option String) :
    List Conn × List Conn :=
  match clients with
  | [] => ([], [])
  | c :: rest =>
    let step := broadcastToRoom rest msg sender
    if sender = some c.id then (c :: step.1, step.2)
    else if c.queue.length < c.cap then (enqueue msg c :: step.1, step.2)
    else (step.1, { c with closed := true } :: step.2)

end Hub

deriving instance DecidableEq for Except

/-- Recognizes a lobby-channel room event (`Client.BroadcastRoomEvent`). -/
def isRoomEvent : Action → Bool
  | Action.broadcastRoom _ _ => true
  | _ => false

/-- A store holding one room with one participant. -/
def dbOne : Store :=
  ⟨[⟨"r1", "Standup", "k", 0, 0⟩], [⟨"p1", "r1", "Ann", "fox", 0, 0⟩]⟩

/-- A store holding one stale room with no participants. -/
def dbEmptyRoom : Store :=
  ⟨[⟨"r1", "Standup", "k", 0, 0⟩], []⟩

/-- A leave environment in which every store request succeeds. -/
def envLeaveAll : RoomService.LeaveEnv := ⟨true, true, true, true⟩

/-- A join environment in which every store request succeeds. -/
def envJoinAll : RoomService.JoinEnv := ⟨true, true, true, true⟩

/-- A cleanup environment in which every store request succeeds. -/
def envCleanAll : CleanupService.CleanupEnv :=
  ⟨true, fun _ => true, fun _ => true, fun _ => true, true⟩

/-- C3.  On each of the three room-deletion paths — `LeaveRoom` reaching a
zero recount, `cleanupParticipants` after removing a room's last participant,
and `cleanupRooms` on an inactive room — the room row is deleted from the
Session Store but no "room deleted" lobby event is issued: the traces contain
the `storeDeleteRoom` mutation and not a single `broadcastRoom` action,
contradicting the claim (and the repository's own architecture document,
which shows a `BroadcastRoomEvent("deleted", room)` call on these paths). -/
theorem roomDelete_emits_no_lobby_event :
    (Action.storeDeleteRoom "r1" ∈ (RoomService.leaveRoom dbOne "r1" "p1" envLeaveAll).2.2
      ∧ (RoomService.leaveRoom dbOne "r1" "p1" envLeaveAll).2.2.filter isRoomEvent = [])
    ∧ (Action.storeDeleteRoom "r1" ∈ (CleanupService.cleanupParticipants dbOne 10 envCleanAll).2
      ∧ (CleanupService.cleanupParticipants dbOne 10 envCleanAll).2.filter isRoomEvent = [])
    ∧ (Action.storeDeleteRoom "r1" ∈ (CleanupService.cleanupRooms dbEmptyRoom 10 envCleanAll).2
      ∧ (CleanupService.cleanupRooms dbEmptyRoom 10 envCleanAll).2.filter isRoomEvent = []) := by
  decide

/-- C4.  `CreateRoom` run on four random id bytes and thirty-two random key
bytes: it does persist a room whose id is the 8-character hex token, whose key
is the 44-character base64 handle of a 256-bit key, and whose creation and
last-active timestamps are the current time, and on persistence failure it
returns an error without storing anything — but on success it issues no
"room created" lobby event: the trace holds only the insert, contradicting
the claim (and the repository's own architecture document, which shows a
`BroadcastRoomEvent("created", room)` call after the insert). -/
theorem createRoom_no_created_event :
    ((RoomService.createRoom ⟨[], []⟩ "Standup" [0, 1, 2, 3] (List.replicate 32 0) 100 true).1
        = Except.ok ⟨"00010203", "Standup", "AAAAAAAAAAAAAAAAAAAAAAAAAAAAAAAAAAAAAAAAAAA=", 100, 100⟩
      ∧ ("00010203" : String).length = 8
      ∧ ("AAAAAAAAAAAAAAAAAAAAAAAAAAAAAAAAAAAAAAAAAAA=" : String).length = 44
      ∧ (RoomService.createRoom ⟨[], []⟩ "Standup" [0, 1, 2, 3] (List.replicate 32 0) 100 true).2.2
        = [Action.storeCreateRoom "00010203"]
      ∧ (RoomService.createRoom ⟨[], []⟩ "Standup" [0, 1, 2, 3] (List.replicate 32 0) 100 true).2.2.filter
          isRoomEvent = [])
    ∧ ((RoomService.createRoom ⟨[], []⟩ "Standup" [0, 1, 2, 3] (List.replicate 32 0) 100 false).1
        = Except.error "failed to create room"
      ∧ (RoomService.createRoom ⟨[], []⟩ "Standup" [0, 1, 2, 3] (List.replicate 32 0) 100 false).2.2
        = []) := by
  decide

/-- C5.  With the reference configuration (interval one time unit) the sweep
times over the first five time units are exactly 1, 2, 3, 4, 5 — in
particular no sweep runs at process start (time 0), and before the first
interval elapses (`sweepTimes 1 0`) no sweep at all has run, contradicting
the claim (and the repository's own architecture document, which shows an
`s.cleanup()` call in `Start` before the ticker loop that the source code
does not contain). -/
theorem cleanup_no_sweep_at_start :
    CleanupService.sweepTimes 1 5 = [1, 2, 3, 4, 5]
    ∧ CleanupService.sweepTimes 1 0 = []
    ∧ 0 ∉ CleanupService.sweepTimes 1 5 := by
  decide

/-- C2 counterexample.  In a successful `JoinRoom` run the trace is
participant insert, then the "participant joined" broadcast, then the room
last-active bump: the bump does not precede the event, refuting the claim's
"in joinRoom this includes the room last-active bump preceding the event". -/
theorem joinRoom_bump_after_event_cex :
    (RoomService.joinRoom dbOne "r1" "Ben" "cat" "p2" 7 envJoinAll).2.2
      = [Action.storeAddParticipant "p2", Action.broadcastParticipant "r1" "join" "p2",
          Action.storeUpdateRoomActivity "r1"]
    ∧ ¬ ((RoomService.joinRoom dbOne "r1" "Ben" "cat" "p2" 7 envJoinAll).2.2.indexOf
          (Action.storeUpdateRoomActivity "r1")
        < (RoomService.joinRoom dbOne "r1" "Ben" "cat" "p2" 7 envJoinAll).2.2.indexOf
          (Action.broadcastParticipant "r1" "join" "p2")) := by
  decide

/-- Scans a trace left to right and checks that every participant presence
event is preceded by the matching successful store mutation: a "join"
broadcast for `pid` by `storeAddParticipant pid`, a "leave" broadcast by
`storeRemoveParticipant pid`.  `seen` is the already-scanned part. -/
def pbOk : List Action → List Action → Bool
  | _, [] => true
  | seen, a :: rest =>
    (match a with
     | Action.broadcastParticipant _ act pid =>
       if act = "join" then decide (Action.storeAddParticipant pid ∈ seen)
       else if act = "leave" then decide (Action.storeRemoveParticipant pid ∈ seen)
       else true
     | _ => true)
    && pbOk (seen ++ [a]) rest

/-- The persist-then-broadcast ordering holds throughout a trace. -/
def persistThenBroadcast (tr : List Action) : Bool := pbOk [] tr

theorem pbOk_append (t1 t2 seen : List Action) :
    pbOk seen (t1 ++ t2) = (pbOk seen t1 && pbOk (seen ++ t1) t2) := by
  induction t1 generalizing seen with
  | nil => simp [pbOk]
  | cons a t1 ih =>
    simp only [List.cons_append, pbOk, List.append_eq]
    rw [ih (seen ++ [a])]
    simp [List.append_assoc, Bool.and_assoc]

theorem pbOk_snoc_removePair (seen tr : List Action) (rid pid : String)
    (h : pbOk seen tr = true) :
    pbOk seen (tr ++ [Action.storeRemoveParticipant pid,
      Action.broadcastParticipant rid "leave" pid]) = true := by
  rw [pbOk_append, h, Bool.true_and]
  simp [pbOk]

theorem pbOk_snoc_deleteRoom (seen tr : List Action) (rid : String)
    (h : pbOk seen tr = true) :
    pbOk seen (tr ++ [Action.storeDeleteRoom rid]) = true := by
  rw [pbOk_append, h, Bool.true_and]
  simp [pbOk]

theorem pbOk_all_nonbroadcast (tr : List Action)
    (h : ∀ a ∈ tr, (match a with | Action.broadcastParticipant _ _ _ => False | _ => True)) :
    ∀ seen, pbOk seen tr = true := by
  induction tr with
  | nil => intro seen; rfl
  | cons a rest ih =>
    intro seen
    have ha := h a (by simp)
    have hrest := ih (fun b hb => h b (by simp [hb]))
    cases a <;> simp [pbOk, hrest]
    exact absurd ha (by simp)

theorem getParticipant_id {db : Store} {pid : String} {p : Participant}
    (h : db.getParticipant pid = some p) : p.id = pid := by
  have := List.find?_some h
  simpa using this

theorem removeInactiveLoop_pb (removeOk : String → Bool) (ps : List Participant)
    (db : Store) (tr : List Action) (rooms : List String)
    (h : persistThenBroadcast tr = true) :
    persistThenBroadcast (CleanupService.removeInactiveLoop removeOk ps db tr rooms).2.1 = true := by
  induction ps generalizing db tr rooms with
  | nil => exact h
  | cons p rest ih =>
    by_cases hc : removeOk p.id = true
    · simp only [CleanupService.removeInactiveLoop, hc, if_true]
      exact ih _ _ _ (pbOk_snoc_removePair _ _ _ _ h)
    · simp only [CleanupService.removeInactiveLoop, hc, if_false]
      exact ih _ _ _ h

theorem deleteEmptyLoop_pb (countOk deleteOk : String → Bool) (rids : List String)
    (db : Store) (tr : List Action) (h : persistThenBroadcast tr = true) :
    persistThenBroadcast (CleanupService.deleteEmptyLoop countOk deleteOk rids db tr).2 = true := by
  induction rids generalizing db tr with
  | nil => exact h
  | cons rid rest ih =>
    simp only [CleanupService.deleteEmptyLoop]
    by_cases h1 : countOk rid = true
    · simp only [h1, if_true]
      by_cases h2 : db.countParticipants rid = 0
      · simp only [h2, if_true]
        by_cases h3 : deleteOk rid = true
        · simp only [h3, if_true]
          exact ih _ _ (pbOk_snoc_deleteRoom _ _ _ h)
        · simp only [h3, if_false]; exact ih _ _ h
      · simp only [h2, if_false]; exact ih _ _ h
    · simp only [h1, if_false]; exact ih _ _ h

theorem deleteRoomsLoop_nonbroadcast (deleteOk : String → Bool) (rs : List Room)
    (db : Store) (tr : List Action)
    (h : ∀ a ∈ tr, (match a with | Action.broadcastParticipant _ _ _ => False | _ => True)) :
    ∀ a ∈ (CleanupService.deleteRoomsLoop deleteOk rs db tr).2,
      (match a with | Action.broadcastParticipant _ _ _ => False | _ => True) := by
  induction rs generalizing db tr with
  | nil => exact h
  | cons r rest ih =>
    simp only [CleanupService.deleteRoomsLoop]
    by_cases h1 : deleteOk r.id = true
    · simp only [h1, if_true]
      refine ih _ _ (fun a ha => ?_)
      rcases List.mem_append.mp ha with h2 | h2
      · exact h a h2
      · simp only [List.mem_singleton] at h2; subst h2; trivial
    · simp only [h1, if_false]; exact ih _ _ h

/-- C2 amended.  In `JoinRoom`, `LeaveRoom` and the cleanup sweep, every
participant presence broadcast is issued only after the corresponding Session
Store mutation (participant insert or delete) has succeeded, never before —
but in `JoinRoom` the room last-active bump follows the join event rather
than preceding it: a successful join's trace is exactly insert, join event,
activity bump. -/
theorem persist_then_broadcast_amended :
    (∀ db roomID username avatar pid now env,
      persistThenBroadcast (RoomService.joinRoom db roomID username avatar pid now env).2.2 = true)
    ∧ (∀ db roomID pid env,
      persistThenBroadcast (RoomService.leaveRoom db roomID pid env).2.2 = true)
    ∧ (∀ db threshold env,
      persistThenBroadcast (CleanupService.cleanup db threshold env).2 = true)
    ∧ (∀ db roomID username avatar pid now room, db.getRoom roomID = some room →
      (RoomService.joinRoom db roomID username avatar pid now envJoinAll).2.2
        = [Action.storeAddParticipant pid, Action.broadcastParticipant roomID "join" pid,
            Action.storeUpdateRoomActivity roomID]) := by
  refine ⟨?_, ?_, ?_, ?_⟩
  · intro db roomID username avatar pid now env
    unfold RoomService.joinRoom
    rcases h : (if env.getRoomOk then db.getRoom roomID else none) with _ | room
    · rfl
    · simp only
      cases env.addOk
      · rfl
      · cases env.updateActivityOk <;> cases env.getParticipantsOk <;>
          simp [persistThenBroadcast, pbOk]
  · intro db roomID pid env
    by_cases hrm : env.removeOk = true
    · rcases hp : (if env.getOk = true then db.getParticipant pid else none) with _ | p
      · simp only [RoomService.leaveRoom, hp, hrm, if_true]
        by_cases hco : env.countOk = true <;>
          by_cases hd : (db.removeParticipant pid).countParticipants roomID = 0 <;>
          by_cases hde : env.deleteOk = true <;>
          simp [hco, hd, hde, persistThenBroadcast, pbOk]
      · have hid : p.id = pid := by
          by_cases hgo : env.getOk = true
          · rw [if_pos hgo] at hp; exact getParticipant_id hp
          · rw [if_neg hgo] at hp; exact absurd hp (by simp)
        simp only [RoomService.leaveRoom, hp, hrm, if_true, hid]
        by_cases hco : env.countOk = true <;>
          by_cases hd : (db.removeParticipant pid).countParticipants roomID = 0 <;>
          by_cases hde : env.deleteOk = true <;>
          simp [hco, hd, hde, persistThenBroadcast, pbOk]
    · simp [RoomService.leaveRoom, hrm, persistThenBroadcast, pbOk]
  · intro db threshold env
    unfold CleanupService.cleanup
    simp only
    rw [persistThenBroadcast, pbOk_append]
    have h1 : persistThenBroadcast (CleanupService.cleanupParticipants db threshold env).2 = true := by
      unfold CleanupService.cleanupParticipants
      cases env.getParticipantsOk
      · rfl
      · simp only [if_true]
        exact deleteEmptyLoop_pb _ _ _ _ _ (removeInactiveLoop_pb _ _ _ _ _ rfl)
    have h2 : ∀ seen, pbOk seen (CleanupService.cleanupRooms
        (CleanupService.cleanupParticipants db threshold env).1 threshold env).2 = true := by
      intro seen
      unfold CleanupService.cleanupRooms
      cases env.getRoomsOk
      · rfl
      · simp only [if_true]
        exact pbOk_all_nonbroadcast _ (deleteRoomsLoop_nonbroadcast _ _ _ _ (by simp)) seen
    rw [persistThenBroadcast] at h1
    rw [h1, Bool.true_and]
    exact h2 _
  · intro db roomID username avatar pid now room h
    simp [RoomService.joinRoom, envJoinAll, h]

/-- C2 amended, witness: the fourth conjunct applied to the one-room store. -/
theorem persist_then_broadcast_amended_witness :
    (RoomService.joinRoom dbOne "r1" "Ben" "cat" "p2" 7 envJoinAll).2.2
      = [Action.storeAddParticipant "p2", Action.broadcastParticipant "r1" "join" "p2",
          Action.storeUpdateRoomActivity "r1"] :=
  persist_then_broadcast_amended.2.2.2 dbOne "r1" "Ben" "cat" "p2" 7
    ⟨"r1", "Standup", "k", 0, 0⟩ (by decide)

theorem deleteRoom_id_not_mem (db : Store) (rid : String) :
    rid ∉ (db.deleteRoom rid).roomIDs := by
  simp only [Store.deleteRoom, Store.roomIDs, List.mem_map]
  rintro ⟨r, hr, hid⟩
  have := List.of_mem_filter hr
  simp [hid] at this

theorem roomIDs_deleteRoom_subset (db : Store) (rid rid2 : String)
    (h : rid ∉ db.roomIDs) : rid ∉ (db.deleteRoom rid2).roomIDs := by
  simp only [Store.deleteRoom, Store.roomIDs, List.mem_map] at h ⊢
  rintro ⟨r, hr, hid⟩
  exact h ⟨r, List.mem_of_mem_filter hr, hid⟩

theorem countParticipants_deleteRoom_ne (db : Store) (rid rid2 : String) (h : rid ≠ rid2) :
    (db.deleteRoom rid2).countParticipants rid = db.countParticipants rid := by
  simp only [Store.countParticipants, Store.getParticipants, Store.deleteRoom]
  congr 1
  rw [List.filter_filter]
  refine List.filter_congr (fun p _ => ?_)
  by_cases hp : p.roomID = rid
  · simp [hp, h]
  · simp [hp]

theorem deleteEmptyLoop_roomIDs_mono (countOk deleteOk : String → Bool) (rids : List String)
    (db : Store) (tr : List Action) (rid : String) (h : rid ∉ db.roomIDs) :
    rid ∉ (CleanupService.deleteEmptyLoop countOk deleteOk rids db tr).1.roomIDs := by
  induction rids generalizing db tr with
  | nil => exact h
  | cons r rest ih =>
    simp only [CleanupService.deleteEmptyLoop]
    by_cases h1 : countOk r = true
    · simp only [h1, if_true]
      by_cases h2 : db.countParticipants r = 0
      · simp only [h2, if_true]
        by_cases h3 : deleteOk r = true
        · simp only [h3, if_true]
          exact ih _ _ (roomIDs_deleteRoom_subset _ _ _ h)
        · simp only [h3, if_false]; exact ih _ _ h
      · simp only [h2, if_false]; exact ih _ _ h
    · simp only [h1, if_false]; exact ih _ _ h

theorem deleteEmptyLoop_count_invariant (countOk deleteOk : String → Bool) (rids : List String)
    (db : Store) (tr : List Action) (rid : String) (h : rid ∉ rids) :
    (CleanupService.deleteEmptyLoop countOk deleteOk rids db tr).1.countParticipants rid
      = db.countParticipants rid := by
  induction rids generalizing db tr with
  | nil => rfl
  | cons r rest ih =>
    have hne : rid ≠ r := fun he => h (he ▸ List.mem_cons_self r rest)
    have hrest : rid ∉ rest := fun he => h (List.mem_cons_of_mem r he)
    simp only [CleanupService.deleteEmptyLoop]
    by_cases h1 : countOk r = true
    · simp only [h1, if_true]
      by_cases h2 : db.countParticipants r = 0
      · simp only [h2, if_true]
        by_cases h3 : deleteOk r = true
        · simp only [h3, if_true]
          rw [ih _ _ hrest, countParticipants_deleteRoom_ne _ _ _ hne]
        · simp only [h3, if_false]; exact ih _ _ hrest
      · simp only [h2, if_false]; exact ih _ _ hrest
    · simp only [h1, if_false]; exact ih _ _ hrest

theorem deleteEmptyLoop_deletes_empty (countOk deleteOk : String → Bool) (rids : List String)
    (db : Store) (tr : List Action) (rid : String)
    (hc : ∀ s, countOk s = true) (hd : ∀ s, deleteOk s = true)
    (hmem : rid ∈ rids) (hnd : rids.Nodup) :
    (CleanupService.deleteEmptyLoop countOk deleteOk rids db tr).1.countParticipants rid = 0 →
    rid ∉ (CleanupService.deleteEmptyLoop countOk deleteOk rids db tr).1.roomIDs := by
  induction rids generalizing db tr with
  | nil => cases hmem
  | cons r rest ih =>
    intro hzero
    have hndr : rest.Nodup := hnd.of_cons
    rcases List.mem_cons.mp hmem with he | hin
    · subst he
      have hnotin : rid ∉ rest := (List.nodup_cons.mp hnd).1
      simp only [CleanupService.deleteEmptyLoop, hc rid, if_true] at hzero ⊢
      by_cases h2 : db.countParticipants rid = 0
      · simp only [h2, if_true, hd rid] at hzero ⊢
        exact deleteEmptyLoop_roomIDs_mono _ _ _ _ _ _ (deleteRoom_id_not_mem db rid)
      · simp only [h2, if_false] at hzero
        rw [deleteEmptyLoop_count_invariant _ _ _ _ _ _ hnotin] at hzero
        exact absurd hzero h2
    · simp only [CleanupService.deleteEmptyLoop, hc r, if_true] at hzero ⊢
      by_cases h2 : db.countParticipants r = 0
      · simp only [h2, if_true, hd r] at hzero ⊢
        exact ih _ _ hin hndr hzero
      · simp only [h2, if_false] at hzero ⊢
        exact ih _ _ hin hndr hzero

theorem insertOnce_mem_self (rid : String) (l : List String) :
    rid ∈ CleanupService.insertOnce rid l := by
  unfold CleanupService.insertOnce
  by_cases h : rid ∈ l
  · simp [h]
  · simp [h]

theorem insertOnce_mem_of_mem (rid s : String) (l : List String) (h : s ∈ l) :
    s ∈ CleanupService.insertOnce rid l := by
  unfold CleanupService.insertOnce
  by_cases hm : rid ∈ l
  · simp [hm, h]
  · simp [hm, List.mem_append, h]

theorem insertOnce_nodup (rid : String) (l : List String) (h : l.Nodup) :
    (CleanupService.insertOnce rid l).Nodup := by
  unfold CleanupService.insertOnce
  by_cases hm : rid ∈ l
  · simpa [hm]
  · simp [hm, List.nodup_append, h]

theorem removeInactiveLoop_rooms_mono (removeOk : String → Bool) (ps : List Participant)
    (db : Store) (tr : List Action) (rooms : List String) (s : String) (h : s ∈ rooms) :
    s ∈ (CleanupService.removeInactiveLoop removeOk ps db tr rooms).2.2 := by
  induction ps generalizing db tr rooms with
  | nil => exact h
  | cons p rest ih =>
    simp only [CleanupService.removeInactiveLoop]
    by_cases h1 : removeOk p.id = true
    · simp only [h1, if_true]
      exact ih _ _ _ (insertOnce_mem_of_mem _ _ _ h)
    · simp only [h1, if_false]; exact ih _ _ _ h

theorem removeInactiveLoop_rooms_mem (removeOk : String → Bool) (ps : List Participant)
    (db : Store) (tr : List Action) (rooms : List String) (p : Participant)
    (hall : ∀ s, removeOk s = true) (hp : p ∈ ps) :
    p.roomID ∈ (CleanupService.removeInactiveLoop removeOk ps db tr rooms).2.2 := by
  induction ps generalizing db tr rooms with
  | nil => cases hp
  | cons q rest ih =>
    simp only [CleanupService.removeInactiveLoop, hall q.id, if_true]
    rcases List.mem_cons.mp hp with he | hin
    · subst he
      exact removeInactiveLoop_rooms_mono _ _ _ _ _ _ (insertOnce_mem_self _ _)
    · exact ih _ _ _ hin

theorem removeInactiveLoop_rooms_nodup (removeOk : String → Bool) (ps : List Participant)
    (db : Store) (tr : List Action) (rooms : List String) (h : rooms.Nodup) :
    (CleanupService.removeInactiveLoop removeOk ps db tr rooms).2.2.Nodup := by
  induction ps generalizing db tr rooms with
  | nil => exact h
  | cons p rest ih =>
    simp only [CleanupService.removeInactiveLoop]
    by_cases h1 : removeOk p.id = true
    · simp only [h1, if_true]; exact ih _ _ _ (insertOnce_nodup _ _ h)
    · simp only [h1, if_false]; exact ih _ _ _ h

/-- C1.  Whenever an operation removes a room's last participant and the
Session Store requests succeed, the room is gone from the Session Store by
the time the operation returns: for `LeaveRoom`, a zero recount after the
removal means the returned store no longer lists the room and the call
returns success; for the cleanup sweep, every room that lost an inactive
participant and has zero participants in the resulting store is no longer
listed in it. -/
theorem emptyRoom_deleted_before_return :
    (∀ db roomID pid (env : RoomService.LeaveEnv),
      env.removeOk = true → env.countOk = true → env.deleteOk = true →
      (db.removeParticipant pid).countParticipants roomID = 0 →
      roomID ∉ (RoomService.leaveRoom db roomID pid env).2.1.roomIDs
        ∧ (RoomService.leaveRoom db roomID pid env).1 = Except.ok ())
    ∧ (∀ db threshold (env : CleanupService.CleanupEnv) rid,
      env.getParticipantsOk = true → (∀ s, env.removeOk s = true) →
      (∀ s, env.countOk s = true) → (∀ s, env.deleteOk s = true) →
      (∃ p ∈ db.getInactiveParticipants threshold, p.roomID = rid) →
      (CleanupService.cleanupParticipants db threshold env).1.countParticipants rid = 0 →
      rid ∉ (CleanupService.cleanupParticipants db threshold env).1.roomIDs) := by
  constructor
  · intro db roomID pid env hrm hco hde hcount
    simp only [RoomService.leaveRoom, hrm, hco, hde, hcount, if_true]
    exact ⟨deleteRoom_id_not_mem _ _, trivial⟩
  · intro db threshold env rid hget hrm hco hde hex hzero
    simp only [CleanupService.cleanupParticipants, hget, if_true] at hzero ⊢
    rcases hex with ⟨p, hp, hrid⟩
    refine deleteEmptyLoop_deletes_empty _ _ _ _ _ _ hco hde ?_ ?_ hzero
    · rw [← hrid]
      exact removeInactiveLoop_rooms_mem _ _ _ _ _ _ hrm hp
    · exact removeInactiveLoop_rooms_nodup _ _ _ _ _ List.nodup_nil

/-- C1 witness: both parts instantiated on a store holding one room with a
single (stale) participant; every request succeeds and the room is gone. -/
theorem emptyRoom_deleted_before_return_witness :
    ("r1" ∉ (RoomService.leaveRoom dbOne "r1" "p1" envLeaveAll).2.1.roomIDs
      ∧ (RoomService.leaveRoom dbOne "r1" "p1" envLeaveAll).1 = Except.ok ())
    ∧ "r1" ∉ (CleanupService.cleanupParticipants dbOne 10 envCleanAll).1.roomIDs :=
  ⟨emptyRoom_deleted_before_return.1 dbOne "r1" "p1" envLeaveAll rfl rfl rfl (by decide),
    emptyRoom_deleted_before_return.2 dbOne 10 envCleanAll "r1" rfl (fun _ => rfl)
      (fun _ => rfl) (fun _ => rfl)
      ⟨⟨"p1", "r1", "Ann", "fox", 0, 0⟩, by decide, rfl⟩ (by decide)⟩

/-- Counts the "participant left" broadcasts for a given participant id in a
trace. -/
def countLeaveBroadcasts (tr : List Action) (pid : String) : Nat :=
  (tr.filter (fun a =>
    match a with
    | Action.broadcastParticipant _ act q => act == "leave" && q == pid
    | _ => false)).length

theorem removeParticipant_getParticipant_none (db : Store) (pid : String) :
    (db.removeParticipant pid).getParticipant pid = none := by
  simp only [Store.getParticipant, Store.removeParticipant]
  refine List.find?_eq_none.mpr (fun p hp => ?_)
  have := List.of_mem_filter hp
  simpa using this

theorem deleteRoom_getParticipant_none (db : Store) (pid rid : String)
    (h : db.getParticipant pid = none) : (db.deleteRoom rid).getParticipant pid = none := by
  simp only [Store.getParticipant, Store.deleteRoom] at h ⊢
  rw [List.find?_eq_none] at h ⊢
  exact fun p hp => h p (List.mem_of_mem_filter hp)

/-- C6.  Leaving twice with every store request succeeding: the first call
removes the participant and returns success with exactly one "participant
left" broadcast; the second call (the participant now absent, as after a race
with the cleanup sweep) also returns success and issues no broadcast at all,
so the participant is deleted exactly once and broadcast exactly once. -/
theorem leaveRoom_idempotent :
    ∀ db roomID pid (env : RoomService.LeaveEnv),
      env.getOk = true → env.removeOk = true → env.countOk = true → env.deleteOk = true →
      (db.getParticipant pid).isSome = true →
      (RoomService.leaveRoom db roomID pid env).1 = Except.ok ()
      ∧ (RoomService.leaveRoom (RoomService.leaveRoom db roomID pid env).2.1 roomID pid env).1
          = Except.ok ()
      ∧ countLeaveBroadcasts (RoomService.leaveRoom db roomID pid env).2.2 pid = 1
      ∧ countLeaveBroadcasts
          (RoomService.leaveRoom (RoomService.leaveRoom db roomID pid env).2.1 roomID pid env).2.2
          pid = 0
      ∧ (RoomService.leaveRoom db roomID pid env).2.1.getParticipant pid = none := by
  intro db roomID pid env hget hrm hco hde hsome
  rcases hp : db.getParticipant pid with _ | p
  · rw [hp] at hsome; cases hsome
  · have hid : p.id = pid := getParticipant_id hp
    have hnone1 : (db.removeParticipant pid).getParticipant pid = none :=
      removeParticipant_getParticipant_none db pid
    by_cases hd : (db.removeParticipant pid).countParticipants roomID = 0
    · have hnone2 : ((db.removeParticipant pid).deleteRoom roomID).getParticipant pid = none :=
        deleteRoom_getParticipant_none _ _ _ hnone1
      simp only [RoomService.leaveRoom, hget, hrm, hco, hde, hd, hp, hid, hnone2,
        if_true, if_false, if_pos, countLeaveBroadcasts]
      by_cases hd2 : (((db.removeParticipant pid).deleteRoom roomID).removeParticipant
          pid).countParticipants roomID = 0 <;>
        simp [hd2, hnone2]
    · simp only [RoomService.leaveRoom, hget, hrm, hco, hde, hd, hp, hid, hnone1,
        if_true, if_false, countLeaveBroadcasts]
      by_cases hd2 : ((db.removeParticipant pid).removeParticipant
          pid).countParticipants roomID = 0 <;>
        simp [hd2, hnone1]

/-- C6 witness: the double leave on the one-room, one-participant store. -/
theorem leaveRoom_idempotent_witness :
    (RoomService.leaveRoom dbOne "r1" "p1" envLeaveAll).1 = Except.ok ()
    ∧ (RoomService.leaveRoom (RoomService.leaveRoom dbOne "r1" "p1" envLeaveAll).2.1
        "r1" "p1" envLeaveAll).1 = Except.ok ()
    ∧ countLeaveBroadcasts (RoomService.leaveRoom dbOne "r1" "p1" envLeaveAll).2.2 "p1" = 1
    ∧ countLeaveBroadcasts
        (RoomService.leaveRoom (RoomService.leaveRoom dbOne "r1" "p1" envLeaveAll).2.1
          "r1" "p1" envLeaveAll).2.2 "p1" = 0
    ∧ (RoomService.leaveRoom dbOne "r1" "p1" envLeaveAll).2.1.getParticipant "p1" = none :=
  leaveRoom_idempotent dbOne "r1" "p1" envLeaveAll rfl rfl rfl rfl (by decide)

/-- C7.  `GetMessages` returns a sublist of the room's stored buffer (hence
in append order), and a message is returned exactly when it is stored for
that room and either the timestamp filter is the zero value or the message's
timestamp is strictly later; in particular the zero value returns the whole
buffer and a room with no matching messages yields the empty result. -/
theorem getMessages_filter_spec :
    ∀ ms rid t,
      (MessageService.getMessages ms rid t).Sublist (MessageService.MsgStore.get ms rid)
      ∧ (∀ m, m ∈ MessageService.getMessages ms rid t ↔
          m ∈ MessageService.MsgStore.get ms rid ∧ (t = 0 ∨ t < m.timestamp)) := by
  intro ms rid t
  by_cases h : t = 0
  · simp [MessageService.getMessages, h, List.Sublist.refl]
  · simp only [MessageService.getMessages, h, if_false]
    refine ⟨List.filter_sublist _, fun m => ?_⟩
    simp [List.mem_filter, h]

/-- Recognizes a call into the message log's per-room purge. -/
def isMsgPurge : Action → Bool
  | Action.deleteRoomMessages _ => true
  | _ => false

theorem applyMsgActions_id (tr : List Action) (ms : MessageService.MsgStore)
    (h : ∀ a ∈ tr, isMsgPurge a = false) : MessageService.applyMsgActions tr ms = ms := by
  induction tr generalizing ms with
  | nil => rfl
  | cons a rest ih =>
    have ha := h a (by simp)
    have step : MessageService.applyMsgActions (a :: rest) ms
        = MessageService.applyMsgActions rest ms := by
      cases a <;> simp [MessageService.applyMsgActions, List.foldl]
      cases ha
    rw [step]
    exact ih _ (fun b hb => h b (by simp [hb]))

theorem removeInactiveLoop_no_purge (removeOk : String → Bool) (ps : List Participant)
    (db : Store) (tr : List Action) (rooms : List String)
    (h : ∀ a ∈ tr, isMsgPurge a = false) :
    ∀ a ∈ (CleanupService.removeInactiveLoop removeOk ps db tr rooms).2.1,
      isMsgPurge a = false := by
  induction ps generalizing db tr rooms with
  | nil => exact h
  | cons p rest ih =>
    simp only [CleanupService.removeInactiveLoop]
    by_cases h1 : removeOk p.id = true
    · simp only [h1, if_true]
      refine ih _ _ _ (fun a ha => ?_)
      rcases List.mem_append.mp ha with h2 | h2
      · exact h a h2
      · simp only [List.mem_cons, List.not_mem_nil, or_false] at h2
        rcases h2 with h2 | h2 <;> subst h2 <;> rfl
    · simp only [h1, if_false]; exact ih _ _ _ h

theorem deleteEmptyLoop_no_purge (countOk deleteOk : String → Bool) (rids : List String)
    (db : Store) (tr : List Action) (h : ∀ a ∈ tr, isMsgPurge a = false) :
    ∀ a ∈ (CleanupService.deleteEmptyLoop countOk deleteOk rids db tr).2,
      isMsgPurge a = false := by
  induction rids generalizing db tr with
  | nil => exact h
  | cons rid rest ih =>
    simp only [CleanupService.deleteEmptyLoop]
    by_cases h1 : countOk rid = true
    · simp only [h1, if_true]
      by_cases h2 : db.countParticipants rid = 0
      · simp only [h2, if_true]
        by_cases h3 : deleteOk rid = true
        · simp only [h3, if_true]
          refine ih _ _ (fun a ha => ?_)
          rcases List.mem_append.mp ha with h4 | h4
          · exact h a h4
          · simp only [List.mem_singleton] at h4; subst h4; rfl
        · simp only [h3, if_false]; exact ih _ _ h
      · simp only [h2, if_false]; exact ih _ _ h
    · simp only [h1, if_false]; exact ih _ _ h

theorem deleteRoomsLoop_no_purge (deleteOk : String → Bool) (rs : List Room)
    (db : Store) (tr : List Action) (h : ∀ a ∈ tr, isMsgPurge a = false) :
    ∀ a ∈ (CleanupService.deleteRoomsLoop deleteOk rs db tr).2, isMsgPurge a = false := by
  induction rs generalizing db tr with
  | nil => exact h
  | cons r rest ih =>
    simp only [CleanupService.deleteRoomsLoop]
    by_cases h1 : deleteOk r.id = true
    · simp only [h1, if_true]
      refine ih _ _ (fun a ha => ?_)
      rcases List.mem_append.mp ha with h2 | h2
      · exact h a h2
      · simp only [List.mem_singleton] at h2; subst h2; rfl
    · simp only [h1, if_false]; exact ih _ _ h

theorem leaveRoom_no_purge (db : Store) (roomID pid : String) (env : RoomService.LeaveEnv) :
    ∀ a ∈ (RoomService.leaveRoom db roomID pid env).2.2, isMsgPurge a = false := by
  by_cases hrm : env.removeOk = true
  · rcases hp : (if env.getOk = true then db.getParticipant pid else none) with _ | p <;>
    · simp only [RoomService.leaveRoom, hp, hrm, if_true]
      by_cases hco : env.countOk = true <;>
        by_cases hd : (db.removeParticipant pid).countParticipants roomID = 0 <;>
        by_cases hde : env.deleteOk = true <;>
        simp [hco, hd, hde, isMsgPurge]
  · simp [RoomService.leaveRoom, hrm]

/-- A message store holding one message in room `r1`. -/
def msgOne : MessageService.MsgStore :=
  ⟨[("r1", [⟨"m1", "r1", "p1", "ciphertext", "Ann", "fox", 3, none⟩])]⟩

/-- C8.  No room-destruction path ever touches the Ephemeral Message Log:
`LeaveRoom` and the cleanup sweep produce traces containing no
`deleteRoomMessages` call, so replaying their message-log effects leaves any
message store unchanged — and concretely, after the leave that destroys room
`r1`, the destroyed room's stored message is still returned in full.  This
contradicts the claim (and `MessageService.DeleteRoomMessages`'s own comment
"Called when a room is deleted": the function has no caller). -/
theorem destroyedRoom_messages_retained :
    (∀ db roomID pid env ms,
      MessageService.applyMsgActions (RoomService.leaveRoom db roomID pid env).2.2 ms = ms)
    ∧ (∀ db threshold env ms,
      MessageService.applyMsgActions (CleanupService.cleanup db threshold env).2 ms = ms)
    ∧ ("r1" ∉ (RoomService.leaveRoom dbOne "r1" "p1" envLeaveAll).2.1.roomIDs
      ∧ MessageService.getMessages
          (MessageService.applyMsgActions
            (RoomService.leaveRoom dbOne "r1" "p1" envLeaveAll).2.2 msgOne) "r1" 0
        = [⟨"m1", "r1", "p1", "ciphertext", "Ann", "fox", 3, none⟩]) := by
  have hclean : ∀ db threshold env, ∀ a ∈ (CleanupService.cleanup db threshold env).2,
      isMsgPurge a = false := by
    intro db threshold env a ha
    rcases List.mem_append.mp ha with h1 | h1
    · revert h1
      simp only [CleanupService.cleanupParticipants]
      by_cases hg : env.getParticipantsOk = true
      · simp only [hg, if_true]
        exact fun h1 => deleteEmptyLoop_no_purge _ _ _ _ _
          (removeInactiveLoop_no_purge _ _ _ _ _ (by simp)) a h1
      · simp [hg]
    · revert h1
      simp only [CleanupService.cleanupRooms]
      by_cases hg : env.getRoomsOk = true
      · simp only [hg, if_true]
        exact fun h1 => deleteRoomsLoop_no_purge _ _ _ _ (by simp) a h1
      · simp [hg]
  refine ⟨?_, ?_, ?_, ?_⟩
  · intro db roomID pid env ms
    exact applyMsgActions_id _ _ (leaveRoom_no_purge db roomID pid env)
  · intro db threshold env ms
    exact applyMsgActions_id _ _ (hclean db threshold env)
  · decide
  · rw [applyMsgActions_id _ _ (leaveRoom_no_purge dbOne "r1" "p1" envLeaveAll)]
    decide

theorem broadcastToRoom_all_nonfull (msg : String) (sender : Option String) :
    ∀ l : List Hub.Conn, (∀ c ∈ l, c.queue.length < c.cap ∧ sender ≠ some c.id) →
      Hub.broadcastToRoom l msg sender = (l.map (Hub.enqueue msg), []) := by
  intro l h
  induction l with
  | nil => rfl
  | cons c rest ih =>
    have hc := h c (by simp)
    have hrest := ih (fun d hd => h d (by simp [hd]))
    simp only [Hub.broadcastToRoom, hrest]
    rw [if_neg hc.2, if_pos hc.1]
    simp

/-- C9.  A broadcast to a room whose registered connections all have queue
space except one saturated connection (and none of which is the sender)
enqueues the payload on every other connection, in order, and removes exactly
the saturated connection from the room's set, returning it with its channel
closed; the fan-out itself is a plain non-blocking pass over the snapshot. -/
theorem broadcast_backpressure :
    ∀ (pre post : List Hub.Conn) (s : Hub.Conn) (msg : String) (sender : Option String),
      (∀ c ∈ pre ++ post, c.queue.length < c.cap ∧ sender ≠ some c.id) →
      s.cap ≤ s.queue.length → sender ≠ some s.id →
      Hub.broadcastToRoom (pre ++ s :: post) msg sender
        = (pre.map (Hub.enqueue msg) ++ post.map (Hub.enqueue msg),
            [{ s with closed := true }]) := by
  intro pre post s msg sender hok hfull hs
  induction pre with
  | nil =>
    have hpost := broadcastToRoom_all_nonfull msg sender post
      (fun c hc => hok c (by simp [hc]))
    simp only [List.nil_append, Hub.broadcastToRoom, hpost]
    rw [if_neg hs, if_neg (by omega)]
    simp
  | cons c rest ih =>
    have hc := hok c (by simp)
    have hrest := ih (fun d hd => hok d (by
      rcases List.mem_append.mp hd with h1 | h1
      · exact List.mem_append.mpr (Or.inl (by simp [h1]))
      · exact List.mem_append.mpr (Or.inr h1)))
    simp only [List.cons_append, Hub.broadcastToRoom]
    rw [if_neg hc.2, if_pos hc.1]
    simp [hrest]

/-- C9 witness: three connections with capacity bounds, the middle one
saturated; the other two receive the payload and the saturated one is dropped
with its channel closed. -/
theorem broadcast_backpressure_witness :
    Hub.broadcastToRoom [⟨"a", 2, [], false⟩, ⟨"b", 1, ["x"], false⟩, ⟨"c", 2, ["y"], false⟩]
        "m" none
      = ([⟨"a", 2, ["m"], false⟩, ⟨"c", 2, ["y", "m"], false⟩], [⟨"b", 1, ["x"], true⟩]) := by
  have h := broadcast_backpressure [⟨"a", 2, [], false⟩] [⟨"c", 2, ["y"], false⟩]
    ⟨"b", 1, ["x"], false⟩ "m" none (by decide) (by decide) (by decide)
  simpa [Hub.enqueue] using h

theorem base64Encode_eq_rfc4648 :
    ∀ l : List Nat, (∀ b ∈ l, b < 256) → base64Encode l = rfc4648Encode l
  | [], _ => rfl
  | [d0], h => by
    have h0 : d0 < 256 := h d0 (by simp)
    have e1 : d0 * 65536 / 262144 % 64 = d0 / 4 := by omega
    have e2 : d0 * 65536 / 4096 % 64 = d0 % 4 * 16 := by omega
    simp only [base64Encode, rfc4648Encode, e1, e2]
  | [d0, d1], h => by
    have h0 : d0 < 256 := h d0 (by simp)
    have h1 : d1 < 256 := h d1 (by simp)
    have e1 : (d0 * 65536 + d1 * 256) / 262144 % 64 = d0 / 4 := by omega
    have e2 : (d0 * 65536 + d1 * 256) / 4096 % 64 = d0 % 4 * 16 + d1 / 16 := by omega
    have e3 : (d0 * 65536 + d1 * 256) / 64 % 64 = d1 % 16 * 4 := by omega
    simp only [base64Encode, rfc4648Encode, e1, e2, e3]
  | d0 :: d1 :: d2 :: rest, h => by
    have h0 : d0 < 256 := h d0 (by simp)
    have h1 : d1 < 256 := h d1 (by simp)
    have h2 : d2 < 256 := h d2 (by simp)
    have e1 : (d0 * 65536 + d1 * 256 + d2) / 262144 % 64 = d0 / 4 := by omega
    have e2 : (d0 * 65536 + d1 * 256 + d2) / 4096 % 64 = d0 % 4 * 16 + d1 / 16 := by omega
    have e3 : (d0 * 65536 + d1 * 256 + d2) / 64 % 64 = d1 % 16 * 4 + d2 / 64 := by omega
    have e4 : (d0 * 65536 + d1 * 256 + d2) % 64 = d2 % 64 := by omega
    have ih := base64Encode_eq_rfc4648 rest (fun b hb => h b (by simp [hb]))
    simp only [base64Encode, rfc4648Encode, e1, e2, e3, e4, ih]

/-- C10 witness: the RFC 4648 test vectors "Man", "Ma", "M" and a 32-byte key,
through the theorem at those inputs. -/
theorem base64Encode_eq_rfc4648_witness :
    base64Encode [77, 97, 110] = rfc4648Encode [77, 97, 110]
    ∧ base64Encode [77, 97] = rfc4648Encode [77, 97]
    ∧ base64Encode [77] = rfc4648Encode [77]
    ∧ base64Encode (List.replicate 32 251) = rfc4648Encode (List.replicate 32 251) :=
  ⟨base64Encode_eq_rfc4648 [77, 97, 110] (by decide),
    base64Encode_eq_rfc4648 [77, 97] (by decide),
    base64Encode_eq_rfc4648 [77] (by decide),
    base64Encode_eq_rfc4648 (List.replicate 32 251) (by decide)⟩

end Talkie
